import Mathlib

/-!
Verification of `scripts/process_shipments.py`.

The script has two core functions, embedded below:

* `process_shipments` (the column resolver): normalizes and renames raw
  spreadsheet headers onto the canonical columns `sku`, `carrier`, `shipto`,
  `lm`, coerces values, and filters rows.
* `perform_transport_planning` (the shipment planner): groups canonical rows
  by `(carrier, shipto, sku)`, sorts the groups, and greedily assigns each
  group to a truck under the capacity constant `MAX_LM`.

Cells of the raw spreadsheet are modelled by `Cell`: a missing value (pandas
NaN), a string, or a number (modelled as a rational; Python floats are a
claim-irrelevant refinement of that here).  Headers are strings.  Tables with
duplicated header labels fall outside this model (pandas raises on most
operations the script performs on a duplicated label).
-/

namespace ProcShip

/- Rat arithmetic in Batteries is irreducible by default; for the concrete
evaluations below we let the elaborator unfold it. -/
attribute [local semireducible] Rat.add Rat.mul Rat.inv Rat.sub Rat.ofScientific

/-! ## Python string primitives used by the script -/

/-- Model of Python str.strip (and of pandas .str.strip()): remove leading and
trailing whitespace. -/
def pyStrip (s : String) : String :=
  ⟨((s.data.dropWhile Char.isWhitespace).reverse.dropWhile Char.isWhitespace).reverse⟩

/-- Model of Python str.lower (ASCII case folding suffices for the header
aliases of this script). -/
def pyLower (s : String) : String := ⟨s.data.map Char.toLower⟩

/-- Decimal digits of a positive number, least significant first; the first
argument is structural fuel (any fuel at least n is enough). -/
def natDigitsLE : Nat → Nat → List Nat
  | 0, _ => []
  | f + 1, n => if n = 0 then [] else (n % 10) :: natDigitsLE f (n / 10)

/-- Model of Python str(i) for a natural number i. -/
def natStr (n : Nat) : String :=
  if n = 0 then "0" else ⟨((natDigitsLE n n).reverse.map Nat.digitChar)⟩

/-- Model of Python str(i) for an integer i. -/
def intStr (n : Int) : String :=
  if n < 0 then "-" ++ natStr n.natAbs else natStr n.natAbs

/-! ## Cells -/

/-- A raw spreadsheet cell: missing (pandas NaN), a string, or a number. -/
inductive Cell where
  | na : Cell
  | str : String → Cell
  | num : ℚ → Cell
deriving DecidableEq

/-- Rendering of a numeric cell as a string.  This is a simplified model of
Python float formatting (integers render exactly as in Python; a fraction
renders as num/den).  No claim depends on the rendering of numeric cells. -/
def ratStr (q : ℚ) : String :=
  if q.den = 1 then intStr q.num else intStr q.num ++ "/" ++ natStr q.den

/-- Model of pandas .astype(str) on one cell: NaN becomes the literal string
"nan", a string stays itself. -/
def cellToStr : Cell → String
  | .na => "nan"
  | .str s => s
  | .num q => ratStr q

/-! ## Numeric coercion: pd.to_numeric(..., errors='coerce').fillna(0.0) -/

def isDigitChar (c : Char) : Bool := '0' ≤ c && c ≤ '9'

def digitsToNat (cs : List Char) : Nat :=
  cs.foldl (fun a c => 10 * a + (c.toNat - '0'.toNat)) 0

/-- Model of the numeric parsing done by pd.to_numeric on a string: optional
sign, an integer part, an optional fractional part after a single dot
(scientific notation is irrelevant to every claim and omitted).  Returns none
when the string is not a number. -/
def parseRat (s : String) : Option ℚ :=
  let cs := (pyStrip s).data
  let sign : ℚ := if cs.head? = some '-' then -1 else 1
  let cs := if cs.head? = some '-' ∨ cs.head? = some '+' then cs.tail else cs
  let ip := cs.takeWhile isDigitChar
  let rest := cs.dropWhile isDigitChar
  match rest with
  | [] => if ip.isEmpty then none else some (sign * digitsToNat ip)
  | '.' :: fp =>
    if fp.all isDigitChar && !(ip.isEmpty && fp.isEmpty) then
      some (sign * ((digitsToNat ip : ℚ) + digitsToNat fp / 10 ^ fp.length))
    else none
  | _ => none

/-- Line 93 of the script, on one cell:
df['lm'] = pd.to_numeric(df['lm'], errors='coerce').fillna(0.0).
Missing and unparsable values both coerce to 0. -/
def toNumericCoerce : Cell → ℚ
  | .na => 0
  | .num q => q
  | .str s => (parseRat s).getD 0

/-! ## Header pipeline (script lines 51-84) -/

/-- Line 51: df.columns.astype(str).str.strip().str.lower() on one header. -/
def normalizeHeader (h : String) : String := pyLower (pyStrip h)

/-- Lines 60-68: the rename dictionary, applied to one header.  Headers not in
the dictionary pass through unchanged. -/
def renameMap (h : String) : String :=
  if h = "unnamed: 33" then "shipto"
  else if h = "unnamed: 80" then "carrier"
  else if h = "unnamed: 70" then "lm"
  else if h = "verzenden-aan code" then "shipto"
  else if h = "vervoerder/ldv" then "carrier"
  else if h = "load meter" then "lm"
  else h

/-- Lines 70-84: the dynamic sku fix.  If a column is named "unnamed: 61",
rename it to "sku"; otherwise, when there are more than 61 columns, rename the
column at positional index 61 (pandas rename is by label, so every column
sharing that label is renamed); otherwise leave the headers unchanged. -/
def skuFix (hs : List String) : List String :=
  if "unnamed: 61" ∈ hs then
    hs.map (fun h => if h = "unnamed: 61" then "sku" else h)
  else if 61 < hs.length then
    hs.map (fun h => if h = hs.getD 61 "" then "sku" else h)
  else hs

/-- The full header pipeline of process_shipments: normalize, rename, sku fix. -/
def pipelineHeaders (hs : List String) : List String :=
  skuFix ((hs.map normalizeHeader).map renameMap)

/-- Index of the first column with the given label (pandas df[name] for a
unique label). -/
def colIdx : List String → String → Option Nat
  | [], _ => none
  | h :: t, name => if h = name then some 0 else (colIdx t name).map (· + 1)

/-- The cell of a row at a column index; a short row reads as missing. -/
def cellAt (r : List Cell) (i : Nat) : Cell := r.getD i Cell.na

/-! ## Row pipeline (script lines 89-115) -/

/-- A raw table: ordered headers and rows of cells. -/
structure RawTable where
  headers : List String
  rows : List (List Cell)

/-- The four canonical columns of one row while the script is still working on
pandas values: sku, carrier and shipto are cells, lm is already numeric. -/
structure StageRow where
  sku : Cell
  carrier : Cell
  shipto : Cell
  lm : ℚ
deriving DecidableEq

/-- Line 101 on one cell: .astype(str).str.strip(). -/
def astypeStrip (c : Cell) : Cell := .str (pyStrip (cellToStr c))

/-- Lines 110-112 on one cell: .fillna(sentinel). -/
def fillnaCell (d : String) : Cell → Cell
  | .na => .str d
  | c => c

/-- The resolver output row: the four canonical fields as the planner reads
them. -/
structure CanonicalRow where
  sku : String
  carrier : String
  shipto : String
  lm : ℚ
deriving DecidableEq

/-- The script function process_shipments(df) (lines 46-115), restricted to
the four columns the rest of the script reads.  Stages, in source order:
header cleanup and renames (lines 51-84); the lm column, synthesized as 0.0
when absent and numerically coerced otherwise (lines 89-93); the critical
column check, returning an empty frame when sku, carrier or shipto is absent
(lines 96-99); .astype(str).str.strip() on those three (line 101); the sku
filter, dropna plus the comparison with '' (lines 104-107); the fillna
sentinels (lines 110-112). -/
def process_shipments (t : RawTable) : List CanonicalRow :=
  let hs := pipelineHeaders t.headers
  let lmOf : List Cell → ℚ :=
    match colIdx hs "lm" with
    | none => fun _ => 0
    | some i => fun r => toNumericCoerce (cellAt r i)
  match colIdx hs "sku", colIdx hs "carrier", colIdx hs "shipto" with
  | some si, some ci, some hi =>
    let stage1 : List StageRow := t.rows.map (fun r =>
      { sku := astypeStrip (cellAt r si), carrier := astypeStrip (cellAt r ci),
        shipto := astypeStrip (cellAt r hi), lm := lmOf r })
    let stage2 := stage1.filter (fun r => decide (r.sku ≠ Cell.na))
    let stage3 := stage2.filter (fun r => decide (r.sku ≠ Cell.str ""))
    let stage4 := stage3.map (fun r =>
      { r with sku := fillnaCell "ONBEKEND_SKU" r.sku,
               carrier := fillnaCell "ONBEKEND_VERVOERDER" r.carrier,
               shipto := fillnaCell "ONBEKEND_ADRES" r.shipto })
    stage4.map (fun r =>
      { sku := cellToStr r.sku, carrier := cellToStr r.carrier,
        shipto := cellToStr r.shipto, lm := r.lm })
  | _, _, _ => []

/-- process_shipments with the fillna stage (lines 110-112) removed, for the
claim that this stage is an unreachable no-op. -/
def process_shipments_nofillna (t : RawTable) : List CanonicalRow :=
  let hs := pipelineHeaders t.headers
  let lmOf : List Cell → ℚ :=
    match colIdx hs "lm" with
    | none => fun _ => 0
    | some i => fun r => toNumericCoerce (cellAt r i)
  match colIdx hs "sku", colIdx hs "carrier", colIdx hs "shipto" with
  | some si, some ci, some hi =>
    let stage1 : List StageRow := t.rows.map (fun r =>
      { sku := astypeStrip (cellAt r si), carrier := astypeStrip (cellAt r ci),
        shipto := astypeStrip (cellAt r hi), lm := lmOf r })
    let stage2 := stage1.filter (fun r => decide (r.sku ≠ Cell.na))
    let stage3 := stage2.filter (fun r => decide (r.sku ≠ Cell.str ""))
    stage3.map (fun r =>
      { sku := cellToStr r.sku, carrier := cellToStr r.carrier,
        shipto := cellToStr r.shipto, lm := r.lm })
  | _, _, _ => []

/-! ## The planner (script lines 120-159) -/

/-- One row of the grouped frame produced by
df.groupby(['carrier','shipto','sku']).agg(num_items=('sku','size'),
total_lm=('lm','sum')).reset_index(). -/
structure ShipGroup where
  carrier : String
  shipto : String
  sku : String
  num_items : Nat
  total_lm : ℚ
deriving DecidableEq

/-- The grouping key of a canonical row. -/
def rowKey (r : CanonicalRow) : String × String × String := (r.carrier, r.shipto, r.sku)

/-- Lines 125-128: one group per distinct (carrier, shipto, sku) value, with
the row count and the lm sum of its rows.  Keys are listed once each, in first
occurrence order; pandas lists them in sorted key order, but the sort_values
call right after makes the two agree up to groups tied under the sort key, and
no theorem below depends on the order among tied groups. -/
def groupBy (rows : List CanonicalRow) : List ShipGroup :=
  ((rows.map rowKey).dedup).map (fun k =>
    { carrier := k.1, shipto := k.2.1, sku := k.2.2,
      num_items := (rows.filter (fun r => decide (rowKey r = k))).length,
      total_lm := ((rows.filter (fun r => decide (rowKey r = k))).map (·.lm)).sum })

/-- Kernel-evaluable strict lexicographic order on char lists by code point. -/
def charListLtB : List Char → List Char → Bool
  | [], [] => false
  | [], _ :: _ => true
  | _ :: _, [] => false
  | a :: as, b :: bs => decide (a < b) || (a == b && charListLtB as bs)

/-- Python string comparison: strict lexicographic order by code point.  This
agrees with the core order on String (`strLt_iff_lt` below) but evaluates
inside the kernel. -/
def strLt (s t : String) : Prop := charListLtB s.data t.data = true

instance : DecidableRel strLt := fun s t => by
  unfold strLt; infer_instance

/-- Lines 133-136: the sort key of
sort_values(['carrier','shipto','total_lm'], ascending=[True,True,False]):
ascending carrier, then ascending shipto, then descending total_lm. -/
def planLE (a b : ShipGroup) : Prop :=
  strLt a.carrier b.carrier ∨
    (a.carrier = b.carrier ∧
      (strLt a.shipto b.shipto ∨ (a.shipto = b.shipto ∧ b.total_lm ≤ a.total_lm)))

instance : DecidableRel planLE := fun a b => by
  unfold planLE; infer_instance

/-- The sorted group list the assignment loop iterates over. -/
def sortGroups (gs : List ShipGroup) : List ShipGroup := List.insertionSort planLE gs

/-- Line 19: MAX_LM = 13.6. -/
def MAX_LM : ℚ := 13.6

/-- Line 150 and 155: the f-string "{carrier}-{truck_index}". -/
def truckId (carrier : String) (i : Nat) : String := carrier ++ "-" ++ natStr i

/-- Lines 142-156, one loop iteration.  State is (current_truck_id,
current_carrier, current_lm); current_carrier starts as None, a sentinel
distinct from every real carrier.  The emitted entry keeps the truck index as
a number; perform_transport_planning renders it through truckId. -/
def assignStep (cap : ℚ) (st : Nat × Option String × ℚ) (g : ShipGroup) :
    (Nat × Option String × ℚ) × (ShipGroup × Nat × ℚ) :=
  let s1 := if st.2.1 ≠ some g.carrier then (st.1 + 1, some g.carrier, (0 : ℚ)) else st
  if s1.2.2 + g.total_lm ≤ cap then
    ((s1.1, s1.2.1, s1.2.2 + g.total_lm), (g, s1.1, s1.2.2 + g.total_lm))
  else
    ((s1.1 + 1, s1.2.1, g.total_lm), (g, s1.1 + 1, g.total_lm))

/-- The assignment loop over the sorted groups. -/
def assignAll (cap : ℚ) (st : Nat × Option String × ℚ) :
    List ShipGroup → List (ShipGroup × Nat × ℚ)
  | [] => []
  | g :: gs => (assignStep cap st g).2 :: assignAll cap (assignStep cap st g).1 gs

/-- One row of the planner output: the group columns plus truck_id and
lm_used_in_truck. -/
structure Assigned where
  carrier : String
  shipto : String
  sku : String
  num_items : Nat
  total_lm : ℚ
  truck_id : String
  lm_used_in_truck : ℚ
deriving DecidableEq

/-- Stamping of truck_id and lm_used_in_truck on a group (lines 150-151 and
155-156). -/
def mkAssigned (e : ShipGroup × Nat × ℚ) : Assigned :=
  { carrier := e.1.carrier, shipto := e.1.shipto, sku := e.1.sku,
    num_items := e.1.num_items, total_lm := e.1.total_lm,
    truck_id := truckId e.1.carrier e.2.1, lm_used_in_truck := e.2.2 }

/-- The group columns of a planner output row. -/
def Assigned.toGroup (a : Assigned) : ShipGroup :=
  { carrier := a.carrier, shipto := a.shipto, sku := a.sku,
    num_items := a.num_items, total_lm := a.total_lm }

/-- The planner with the capacity as an argument (the script reads the module
constant MAX_LM; the spec contract is plan(canonical_table, capacity)). -/
def planWithCapacity (cap : ℚ) (rows : List CanonicalRow) : List Assigned :=
  (assignAll cap (1, none, 0) (sortGroups (groupBy rows))).map mkAssigned

/-- The script function perform_transport_planning(df_processed)
(lines 120-159): group, sort, assign under MAX_LM. -/
def perform_transport_planning (rows : List CanonicalRow) : List Assigned :=
  planWithCapacity MAX_LM rows

/-- The sort key of lines 133-136 written with the ambient linear order on
strings, to state sortedness claims against the library order. -/
def planLEOrder (a b : ShipGroup) : Prop :=
  a.carrier < b.carrier ∨
    (a.carrier = b.carrier ∧
      (a.shipto < b.shipto ∨ (a.shipto = b.shipto ∧ b.total_lm ≤ a.total_lm)))

/-- The invariant of the assignment loop, over the entries still to be
emitted from state index i and current carrier c: an entry either opens a
later truck or continues the current one under the current carrier; an entry
that continues the current truck index fits under cap; entries sharing a
truck index share a carrier; and an entry whose running load exceeds cap is
an oversized group alone in its truck. -/
def AssignInv (cap : ℚ) (i : Nat) (c : Option String)
    (out : List (ShipGroup × Nat × ℚ)) : Prop :=
  (∀ e ∈ out, i < e.2.1 ∨ (e.2.1 = i ∧ c = some e.1.carrier)) ∧
  (∀ e ∈ out, e.2.1 = i → e.2.2 ≤ cap) ∧
  (∀ e ∈ out, ∀ e' ∈ out, e.2.1 = e'.2.1 → e.1.carrier = e'.1.carrier) ∧
  (∀ e ∈ out, cap < e.2.2 → cap < e.1.total_lm ∧ e.2.2 = e.1.total_lm ∧
    (out.filter (fun x => decide (x.2.1 = e.2.1))).length = 1)

/-! ## Concrete fixtures used by the claim theorems -/

/-- A group of carrier "A", ship-to "X", load 6. -/
def sgA : ShipGroup := ⟨"A", "X", "s1", 1, 6⟩

/-- A group of carrier "A", ship-to "X", load 5. -/
def sgB : ShipGroup := ⟨"A", "X", "s2", 1, 5⟩

/-- A table whose sku column holds a whitespace-only cell, the string "NaN"
and the string "0". -/
def tblSkuFilter : RawTable :=
  { headers := ["unnamed: 61", "unnamed: 80", "unnamed: 33", "unnamed: 70"],
    rows := [[.str "  ", .str "C", .str "X", .num 1],
             [.str "NaN", .str "C", .str "X", .num 2],
             [.str "0", .str "C", .str "X", .num 3]] }

/-- A table with headers "material" and "artikel" (and resolvable carrier and
shipto), but no "unnamed: 61" and fewer than 62 columns. -/
def tblMaterial : RawTable :=
  { headers := ["material", "artikel", "unnamed: 80", "unnamed: 33"],
    rows := [[.str "M1", .str "A1", .str "C1", .str "X"]] }

/-- A table using the alias spellings "verzenden aan", "vervoerder" and
"laadmeter" that the script does not rename. -/
def tblAliases : RawTable :=
  { headers := ["verzenden aan", "vervoerder", "laadmeter", "unnamed: 61"],
    rows := [[.str "X", .str "C", .str "1.0", .str "S"]] }

/-- A non-empty table in which sku is unresolvable: no "unnamed: 61", no
column at index 61. -/
def tblNoSku : RawTable :=
  { headers := ["unnamed: 80", "unnamed: 33"],
    rows := [[.str "C1", .str "X"]] }

/-- A table whose raw header is already "sku": neither branch of the sku fix
applies, yet the critical-column check passes. -/
def tblRawSku : RawTable :=
  { headers := ["sku", "unnamed: 80", "unnamed: 33"],
    rows := [[.str "S1", .str "C", .str "X"]] }

/-- A non-empty table with no load-meter column. -/
def tblNoLm : RawTable :=
  { headers := ["unnamed: 61", "unnamed: 80", "unnamed: 33"],
    rows := [[.str "S", .str "C", .str "X"]] }

/-- A table whose carrier cell is missing. -/
def tblNaCarrier : RawTable :=
  { headers := ["unnamed: 61", "unnamed: 80", "unnamed: 33"],
    rows := [[.str "S1", .na, .str "X"]] }

/-- Sixty-two distinct headers, none of them "unnamed: 61", for the positional
sku fallback. -/
def hsWide : List String := (List.range 62).map (fun k => "c" ++ natStr k)

/-- Canonical rows for the capacity-invariant witness: two groups of one
carrier that share a truck under MAX_LM. -/
def rowsCap : List CanonicalRow := [⟨"s1", "A", "X", 6⟩, ⟨"s2", "A", "X", 5⟩]

/-! ## Lemmas: the string order bridge -/

theorem charListLtB_iff : ∀ l₁ l₂ : List Char, charListLtB l₁ l₂ = true ↔ l₁ < l₂ := by
  intro l₁
  induction l₁ with
  | nil =>
    intro l₂
    cases l₂ with
    | nil =>
      simp only [charListLtB, Bool.false_eq_true, false_iff]
      intro h
      cases h
    | cons b bs =>
      simp only [charListLtB, true_iff]
      exact List.Lex.nil
  | cons a as ih =>
    intro l₂
    cases l₂ with
    | nil =>
      simp only [charListLtB, Bool.false_eq_true, false_iff]
      intro h
      cases h
    | cons b bs =>
      simp only [charListLtB, Bool.or_eq_true, Bool.and_eq_true, decide_eq_true_eq, beq_iff_eq]
      constructor
      · rintro (hab | ⟨rfl, h⟩)
        · exact List.Lex.rel hab
        · exact List.Lex.cons ((ih bs).mp h)
      · intro h
        cases h with
        | cons h => exact Or.inr ⟨rfl, (ih bs).mpr h⟩
        | rel h => exact Or.inl h

theorem strLt_iff_lt (s t : String) : strLt s t ↔ s < t := by
  rw [String.lt_iff_toList_lt]
  exact charListLtB_iff s.data t.data

theorem planLE_iff_planLEOrder (a b : ShipGroup) : planLE a b ↔ planLEOrder a b := by
  unfold planLE planLEOrder
  rw [strLt_iff_lt, strLt_iff_lt]

instance : IsTotal ShipGroup planLE := by
  constructor
  intro a b
  rcases lt_trichotomy a.carrier b.carrier with hc | hc | hc
  · exact Or.inl (Or.inl ((strLt_iff_lt _ _).mpr hc))
  · rcases lt_trichotomy a.shipto b.shipto with hs | hs | hs
    · exact Or.inl (Or.inr ⟨hc, Or.inl ((strLt_iff_lt _ _).mpr hs)⟩)
    · rcases le_total b.total_lm a.total_lm with hl | hl
      · exact Or.inl (Or.inr ⟨hc, Or.inr ⟨hs, hl⟩⟩)
      · exact Or.inr (Or.inr ⟨hc.symm, Or.inr ⟨hs.symm, hl⟩⟩)
    · exact Or.inr (Or.inr ⟨hc.symm, Or.inl ((strLt_iff_lt _ _).mpr hs)⟩)
  · exact Or.inr (Or.inl ((strLt_iff_lt _ _).mpr hc))

instance : IsTrans ShipGroup planLE := by
  constructor
  intro a b c hab hbc
  rw [planLE_iff_planLEOrder] at hab hbc ⊢
  unfold planLEOrder at hab hbc ⊢
  rcases hab with hab | ⟨hab, hab'⟩
  · rcases hbc with hbc | ⟨hbc, _⟩
    · exact Or.inl (hab.trans hbc)
    · exact Or.inl (hbc ▸ hab)
  · rcases hbc with hbc | ⟨hbc, hbc'⟩
    · exact Or.inl (hab ▸ hbc)
    · refine Or.inr ⟨hab.trans hbc, ?_⟩
      rcases hab' with h1 | ⟨h1, h1'⟩
      · rcases hbc' with h2 | ⟨h2, _⟩
        · exact Or.inl (h1.trans h2)
        · exact Or.inl (h2 ▸ h1)
      · rcases hbc' with h2 | ⟨h2, h2'⟩
        · exact Or.inl (h1 ▸ h2)
        · exact Or.inr ⟨h1.trans h2, h2'.trans h1'⟩

/-! ## Lemmas: the assignment fold keeps the groups -/

theorem assignStep_snd_fst (cap : ℚ) (st : Nat × Option String × ℚ) (g : ShipGroup) :
    (assignStep cap st g).2.1 = g := by
  unfold assignStep
  dsimp only
  split <;> split <;> rfl


theorem assignAll_map_fst (cap : ℚ) :
    ∀ (gs : List ShipGroup) (st : Nat × Option String × ℚ),
      (assignAll cap st gs).map (fun e => e.1) = gs := by
  intro gs
  induction gs with
  | nil => intro st; rfl
  | cons g gs ih =>
    intro st
    simp only [assignAll, List.map_cons, ih, assignStep_snd_fst]

theorem toGroup_mkAssigned (e : ShipGroup × Nat × ℚ) : (mkAssigned e).toGroup = e.1 := rfl

theorem plan_map_toGroup (cap : ℚ) (rows : List CanonicalRow) :
    (planWithCapacity cap rows).map Assigned.toGroup = sortGroups (groupBy rows) := by
  unfold planWithCapacity
  rw [List.map_map]
  have he : Assigned.toGroup ∘ mkAssigned = fun e => e.1 := funext fun e => rfl
  rw [he, assignAll_map_fst]

/-- Claim C4: for every canonical table, the planner processes the shipment
groups in the order given by the sort key, ascending carrier, then ascending
shipto, then descending total_load, and the output partition order is this
sorted order (a permutation of the groups in sort-key order), not insertion
order. -/
theorem C4_sorted_order (rows : List CanonicalRow) :
    List.Sorted planLEOrder ((perform_transport_planning rows).map Assigned.toGroup) ∧
    ((perform_transport_planning rows).map Assigned.toGroup).Perm (groupBy rows) := by
  unfold perform_transport_planning
  rw [plan_map_toGroup]
  constructor
  · exact (List.sorted_insertionSort planLE (groupBy rows)).imp
      (fun h => (planLE_iff_planLEOrder _ _).mp h)
  · exact List.perm_insertionSort planLE (groupBy rows)

/-! ## Lemmas: the four branches of one assignment step -/

theorem assignStep_stay_fit (cap : ℚ) (i : Nat) (lm : ℚ) (g : ShipGroup)
    (hfit : lm + g.total_lm ≤ cap) :
    assignStep cap (i, some g.carrier, lm) g =
      ((i, some g.carrier, lm + g.total_lm), (g, i, lm + g.total_lm)) := by
  unfold assignStep
  dsimp only
  rw [if_neg (show ¬(some g.carrier ≠ some g.carrier) from fun h => h rfl)]
  dsimp only
  rw [if_pos hfit]

theorem assignStep_stay_over (cap : ℚ) (i : Nat) (lm : ℚ) (g : ShipGroup)
    (hfit : ¬(lm + g.total_lm ≤ cap)) :
    assignStep cap (i, some g.carrier, lm) g =
      ((i + 1, some g.carrier, g.total_lm), (g, i + 1, g.total_lm)) := by
  unfold assignStep
  dsimp only
  rw [if_neg (show ¬(some g.carrier ≠ some g.carrier) from fun h => h rfl)]
  dsimp only
  rw [if_neg hfit]

theorem assignStep_change_fit (cap : ℚ) (i : Nat) (c : Option String) (lm : ℚ) (g : ShipGroup)
    (hc : c ≠ some g.carrier) (hfit : 0 + g.total_lm ≤ cap) :
    assignStep cap (i, c, lm) g =
      ((i + 1, some g.carrier, 0 + g.total_lm), (g, i + 1, 0 + g.total_lm)) := by
  unfold assignStep
  dsimp only
  rw [if_pos hc]
  dsimp only
  rw [if_pos hfit]

theorem assignStep_change_over (cap : ℚ) (i : Nat) (c : Option String) (lm : ℚ) (g : ShipGroup)
    (hc : c ≠ some g.carrier) (hfit : ¬(0 + g.total_lm ≤ cap)) :
    assignStep cap (i, c, lm) g =
      ((i + 1 + 1, some g.carrier, g.total_lm), (g, i + 1 + 1, g.total_lm)) := by
  unfold assignStep
  dsimp only
  rw [if_pos hc]
  dsimp only
  rw [if_neg hfit]

/-- Claim C2: the greedy pass.  A carrier change, the very first group
included because the current carrier starts as the sentinel None, resets the
running load to 0, increments the truck index and updates the carrier; then
the group joins the open truck iff running_load + total_load stays within
capacity, and otherwise a new truck opens with running_load = total_load.  In
the concrete scenario with capacity 10, carrier "A", shipto "X" and group
loads 6, 5, 3, the assignments are 6 to truck "A-2" (running 6), 5 to truck
"A-3" (running 5) and 3 to truck "A-3" (running 8); the first truck index is
2 because the initial index 1 is incremented by the first carrier change. -/
theorem C2_greedy_assignment :
    (∀ (cap : ℚ) (st : Nat × Option String × ℚ) (g : ShipGroup), st.2.1 ≠ some g.carrier →
      assignStep cap st g = assignStep cap (st.1 + 1, some g.carrier, 0) g) ∧
    (∀ (cap : ℚ) (i : Nat) (lm : ℚ) (g : ShipGroup), lm + g.total_lm ≤ cap →
      assignStep cap (i, some g.carrier, lm) g =
        ((i, some g.carrier, lm + g.total_lm), (g, i, lm + g.total_lm))) ∧
    (∀ (cap : ℚ) (i : Nat) (lm : ℚ) (g : ShipGroup), ¬(lm + g.total_lm ≤ cap) →
      assignStep cap (i, some g.carrier, lm) g =
        ((i + 1, some g.carrier, g.total_lm), (g, i + 1, g.total_lm))) ∧
    planWithCapacity 10 [⟨"s1", "A", "X", 6⟩, ⟨"s2", "A", "X", 5⟩, ⟨"s3", "A", "X", 3⟩] =
      [⟨"A", "X", "s1", 1, 6, "A-2", 6⟩, ⟨"A", "X", "s2", 1, 5, "A-3", 5⟩,
       ⟨"A", "X", "s3", 1, 3, "A-3", 8⟩] := by
  refine ⟨?_, ?_, ?_, by decide⟩
  · intro cap st g h
    unfold assignStep
    dsimp only
    rw [if_pos h, if_neg (show ¬(some g.carrier ≠ some g.carrier) from fun hh => hh rfl)]
  · intro cap i lm g h
    exact assignStep_stay_fit cap i lm g h
  · intro cap i lm g h
    exact assignStep_stay_over cap i lm g h

/-- Witness for C2 at concrete inputs: the first carrier change of a run, a
fitting group, and an overflowing group. -/
theorem C2_greedy_assignment_witness :
    assignStep 10 (1, (none : Option String), 0) sgA = assignStep 10 (1 + 1, some "A", 0) sgA ∧
    assignStep 10 (2, some "A", (0 : ℚ)) sgA =
      ((2, some "A", 0 + sgA.total_lm), (sgA, 2, 0 + sgA.total_lm)) ∧
    assignStep 10 (3, some "A", (6 : ℚ)) sgB =
      ((3 + 1, some "A", sgB.total_lm), (sgB, 3 + 1, sgB.total_lm)) :=
  ⟨C2_greedy_assignment.1 10 (1, none, 0) sgA (by decide),
   C2_greedy_assignment.2.1 10 2 0 sgA (by decide),
   C2_greedy_assignment.2.2.1 10 3 6 sgB (by decide)⟩

/-! ## Lemmas: partitioning a list by key -/

theorem filter_partition_sum {α M : Type} [AddCommMonoid M] (g : α → M) (p : α → Bool) :
    ∀ l : List α,
      ((l.filter p).map g).sum + ((l.filter (fun a => !p a)).map g).sum = (l.map g).sum := by
  intro l
  induction l with
  | nil => simp
  | cons a t ih =>
    by_cases h : p a
    · rw [List.filter_cons, List.filter_cons, if_pos h, if_neg (by simp [h])]
      simp only [List.map_cons, List.sum_cons]
      rw [add_assoc, ih]
    · rw [List.filter_cons, List.filter_cons, if_neg h, if_pos (by simp [h])]
      simp only [List.map_cons, List.sum_cons]
      rw [add_left_comm, ih]

theorem map_filter_key_sum {α K M : Type} [DecidableEq K] [AddCommMonoid M]
    (f : α → K) (g : α → M) :
    ∀ (keys : List K) (l : List α), keys.Nodup → (∀ a ∈ l, f a ∈ keys) →
      (keys.map (fun k => ((l.filter (fun a => decide (f a = k))).map g).sum)).sum
        = (l.map g).sum := by
  intro keys
  induction keys with
  | nil =>
    intro l _ hcov
    have hl : l = [] :=
      List.eq_nil_iff_forall_not_mem.mpr (fun a ha => absurd (hcov a ha) (List.not_mem_nil _))
    subst hl
    simp
  | cons k ks ih =>
    intro l hnd hcov
    have hk : k ∉ ks := (List.nodup_cons.mp hnd).1
    rw [List.map_cons, List.sum_cons]
    have htail : ks.map (fun k' => ((l.filter (fun a => decide (f a = k'))).map g).sum)
        = ks.map (fun k' =>
            (((l.filter (fun a => !decide (f a = k))).filter
              (fun a => decide (f a = k'))).map g).sum) := by
      apply List.map_congr_left
      intro k' hk'
      have hkk : k ≠ k' := fun h => hk (h ▸ hk')
      congr 2
      rw [List.filter_filter]
      apply List.filter_congr
      intro a _
      by_cases h : f a = k'
      · have h1 : ¬ f a = k := fun hh => hkk (hh ▸ h)
        have h2 : ¬ k' = k := fun hh => hkk hh.symm
        simp [h, h1, h2]
      · simp [h]
    rw [htail, ih (l.filter (fun a => !decide (f a = k))) (List.nodup_cons.mp hnd).2 ?_]
    · exact filter_partition_sum g (fun a => decide (f a = k)) l
    · intro a ha
      have hm := List.mem_filter.mp ha
      have : ¬ f a = k := by
        have := hm.2
        simp only [Bool.not_eq_true', decide_eq_false_iff_not] at this
        exact this
      have hin := hcov a hm.1
      rcases List.mem_cons.mp hin with h | h
      · exact absurd h this
      · exact h

theorem sum_map_one {α : Type} (l : List α) : (l.map (fun _ => (1 : ℕ))).sum = l.length := by
  induction l with
  | nil => rfl
  | cons a t ih =>
    simp only [List.map_cons, List.sum_cons, ih, List.length_cons]
    omega

/-- Claim C9: after grouping by (carrier, shipto, sku), the item counts of the
groups sum to the number of canonical rows, the group loads sum to the sum of
the row loads (exactly, in the rational model, hence within any tolerance),
and there is at most one group per identity tuple. -/
theorem C9_grouping_conservation (rows : List CanonicalRow) :
    ((groupBy rows).map (fun gr => gr.num_items)).sum = rows.length ∧
    ((groupBy rows).map (fun gr => gr.total_lm)).sum = (rows.map (fun r => r.lm)).sum ∧
    ((groupBy rows).map (fun gr => (gr.carrier, gr.shipto, gr.sku))).Nodup := by
  have hnd : ((rows.map rowKey).dedup).Nodup := List.nodup_dedup _
  have hcov : ∀ r ∈ rows, rowKey r ∈ (rows.map rowKey).dedup := fun r hr =>
    List.mem_dedup.mpr (List.mem_map_of_mem rowKey hr)
  refine ⟨?_, ?_, ?_⟩
  · unfold groupBy
    rw [List.map_map]
    have he : ((rows.map rowKey).dedup).map
          ((fun gr => gr.num_items) ∘ (fun k : String × String × String =>
            ({ carrier := k.1, shipto := k.2.1, sku := k.2.2,
               num_items := (rows.filter (fun r => decide (rowKey r = k))).length,
               total_lm := ((rows.filter (fun r => decide (rowKey r = k))).map (·.lm)).sum }
              : ShipGroup)))
        = ((rows.map rowKey).dedup).map (fun k =>
            ((rows.filter (fun r => decide (rowKey r = k))).map (fun _ => (1 : ℕ))).sum) := by
      apply List.map_congr_left
      intro k _
      exact (sum_map_one _).symm
    rw [he, map_filter_key_sum rowKey (fun _ => (1 : ℕ)) _ rows hnd hcov, sum_map_one]
  · unfold groupBy
    rw [List.map_map]
    exact map_filter_key_sum rowKey (fun r => r.lm) _ rows hnd hcov
  · unfold groupBy
    rw [List.map_map]
    have he : ((rows.map rowKey).dedup).map
          ((fun gr => (gr.carrier, gr.shipto, gr.sku)) ∘ (fun k : String × String × String =>
            ({ carrier := k.1, shipto := k.2.1, sku := k.2.2,
               num_items := (rows.filter (fun r => decide (rowKey r = k))).length,
               total_lm := ((rows.filter (fun r => decide (rowKey r = k))).map (·.lm)).sum }
              : ShipGroup)))
        = ((rows.map rowKey).dedup).map id := by
      apply List.map_congr_left
      intro k _
      rfl
    rw [he, List.map_id]
    exact hnd

/-! ## Lemmas: the capacity invariant of the assignment loop -/

theorem AssignInv.step (cap : ℚ) (g : ShipGroup) (i i' : Nat) (c : Option String) (lm lm' : ℚ)
    (out' : List (ShipGroup × Nat × ℚ))
    (hA0 : i < i' ∨ (i' = i ∧ c = some g.carrier))
    (hA2 : cap < lm → i < i')
    (hC0 : i' = i → lm' ≤ cap)
    (hB0 : cap < lm' → cap < g.total_lm ∧ lm' = g.total_lm)
    (hIH : AssignInv cap i' (some g.carrier) out')
    (hIH2 : cap < lm' → ∀ e ∈ out', i' < e.2.1) :
    AssignInv cap i c ((g, i', lm') :: out') ∧
      (cap < lm → ∀ e ∈ (g, i', lm') :: out', i < e.2.1) := by
  obtain ⟨ihA, ihC, ihD, ihB⟩ := hIH
  refine ⟨⟨?_, ?_, ?_, ?_⟩, ?_⟩
  · intro e he
    rcases List.mem_cons.mp he with rfl | he
    · rcases hA0 with h | ⟨h1, h2⟩
      · exact Or.inl h
      · exact Or.inr ⟨h1, h2⟩
    · rcases ihA e he with h | ⟨h1, h2⟩
      · rcases hA0 with h0 | ⟨h0, _⟩
        · exact Or.inl (h0.trans h)
        · exact Or.inl (h0 ▸ h)
      · rcases hA0 with h0 | ⟨h0, hc0⟩
        · exact Or.inl (h1 ▸ h0)
        · exact Or.inr ⟨h1.trans h0, hc0.trans h2⟩
  · intro e he hei
    rcases List.mem_cons.mp he with rfl | he
    · exact hC0 hei
    · rcases ihA e he with h | ⟨h1, _⟩
      · rcases hA0 with h0 | ⟨h0, _⟩ <;> omega
      · exact ihC e he h1
  · intro e he e' he' heq
    rcases List.mem_cons.mp he with rfl | he <;> rcases List.mem_cons.mp he' with rfl | he'
    · rfl
    · rcases ihA e' he' with h | ⟨h1, h2⟩
      · simp only at heq
        omega
      · exact Option.some.inj h2
    · rcases ihA e he with h | ⟨h1, h2⟩
      · simp only at heq
        omega
      · exact (Option.some.inj h2).symm
    · exact ihD e he e' he' heq
  · intro e he hcap
    rcases List.mem_cons.mp he with rfl | he
    · obtain ⟨h1, h2⟩ := hB0 hcap
      refine ⟨h1, h2, ?_⟩
      rw [List.filter_cons, if_pos (by simp)]
      have hnone : out'.filter (fun x => decide (x.2.1 = (g, i', lm').2.1)) = [] := by
        rw [List.filter_eq_nil_iff]
        intro x hx
        have hgt := hIH2 hcap x hx
        simp only [decide_eq_true_eq]
        omega
      rw [hnone]
      rfl
    · obtain ⟨h1, h2, h3⟩ := ihB e he hcap
      refine ⟨h1, h2, ?_⟩
      rw [List.filter_cons, if_neg ?_, h3]
      simp only [decide_eq_true_eq]
      intro hx
      exact absurd (ihC e he hx.symm) (not_le.mpr hcap)
  · intro hlm e he
    have hii : i < i' := hA2 hlm
    rcases List.mem_cons.mp he with rfl | he
    · exact hii
    · rcases ihA e he with h | ⟨h1, _⟩ <;> omega

theorem assignAll_invariant (cap : ℚ) :
    ∀ (gs : List ShipGroup) (i : Nat) (c : Option String) (lm : ℚ),
      (∀ g ∈ gs, 0 ≤ g.total_lm) →
      AssignInv cap i c (assignAll cap (i, c, lm) gs) ∧
        (cap < lm → ∀ e ∈ assignAll cap (i, c, lm) gs, i < e.2.1) := by
  intro gs
  induction gs with
  | nil =>
    intro i c lm _
    refine ⟨⟨?_, ?_, ?_, ?_⟩, ?_⟩ <;> simp [assignAll]
  | cons g gs ih =>
    intro i c lm hload
    have hg : 0 ≤ g.total_lm := hload g (List.mem_cons_self g gs)
    have hload' : ∀ x ∈ gs, 0 ≤ x.total_lm := fun x hx => hload x (List.mem_cons_of_mem g hx)
    by_cases hc : c = some g.carrier
    · subst hc
      by_cases hfit : lm + g.total_lm ≤ cap
      · have hstep : assignAll cap (i, some g.carrier, lm) (g :: gs) =
            (g, i, lm + g.total_lm) :: assignAll cap (i, some g.carrier, lm + g.total_lm) gs := by
          simp only [assignAll, assignStep_stay_fit cap i lm g hfit]
        rw [hstep]
        exact AssignInv.step cap g i i (some g.carrier) lm (lm + g.total_lm) _
          (Or.inr ⟨rfl, rfl⟩)
          (fun hlm => absurd (le_trans (le_add_of_nonneg_right hg) hfit) (not_le.mpr hlm))
          (fun _ => hfit)
          (fun hcap => absurd hfit (not_le.mpr hcap))
          (ih i (some g.carrier) (lm + g.total_lm) hload').1
          (ih i (some g.carrier) (lm + g.total_lm) hload').2
      · have hstep : assignAll cap (i, some g.carrier, lm) (g :: gs) =
            (g, i + 1, g.total_lm) :: assignAll cap (i + 1, some g.carrier, g.total_lm) gs := by
          simp only [assignAll, assignStep_stay_over cap i lm g hfit]
        rw [hstep]
        exact AssignInv.step cap g i (i + 1) (some g.carrier) lm g.total_lm _
          (Or.inl (Nat.lt_succ_self i))
          (fun _ => Nat.lt_succ_self i)
          (fun h => absurd h (Nat.succ_ne_self i))
          (fun h => ⟨h, rfl⟩)
          (ih (i + 1) (some g.carrier) g.total_lm hload').1
          (ih (i + 1) (some g.carrier) g.total_lm hload').2
    · by_cases hfit : 0 + g.total_lm ≤ cap
      · have hstep : assignAll cap (i, c, lm) (g :: gs) =
            (g, i + 1, 0 + g.total_lm) ::
              assignAll cap (i + 1, some g.carrier, 0 + g.total_lm) gs := by
          simp only [assignAll, assignStep_change_fit cap i c lm g hc hfit]
        rw [hstep]
        exact AssignInv.step cap g i (i + 1) c lm (0 + g.total_lm) _
          (Or.inl (Nat.lt_succ_self i))
          (fun _ => Nat.lt_succ_self i)
          (fun _ => hfit)
          (fun hcap => absurd hfit (not_le.mpr hcap))
          (ih (i + 1) (some g.carrier) (0 + g.total_lm) hload').1
          (ih (i + 1) (some g.carrier) (0 + g.total_lm) hload').2
      · have hstep : assignAll cap (i, c, lm) (g :: gs) =
            (g, i + 1 + 1, g.total_lm) ::
              assignAll cap (i + 1 + 1, some g.carrier, g.total_lm) gs := by
          simp only [assignAll, assignStep_change_over cap i c lm g hc hfit]
        rw [hstep]
        exact AssignInv.step cap g i (i + 1 + 1) c lm g.total_lm _
          (Or.inl (by omega))
          (fun _ => by omega)
          (fun h => absurd h (by omega))
          (fun h => ⟨h, rfl⟩)
          (ih (i + 1 + 1) (some g.carrier) g.total_lm hload').1
          (ih (i + 1 + 1) (some g.carrier) g.total_lm hload').2

/-! ## Lemmas: decimal rendering of truck indices is injective and dash-free -/

theorem natDigitsLE_lt_ten : ∀ (f n : Nat), ∀ d ∈ natDigitsLE f n, d < 10 := by
  intro f
  induction f with
  | zero =>
    intro n d hd
    simp [natDigitsLE] at hd
  | succ f ih =>
    intro n d hd
    by_cases h : n = 0
    · simp [natDigitsLE, h] at hd
    · rw [natDigitsLE, if_neg h] at hd
      rcases List.mem_cons.mp hd with rfl | hd
      · exact Nat.mod_lt _ (by omega)
      · exact ih _ d hd

theorem ofDigits_natDigitsLE : ∀ (f n : Nat), n ≤ f → Nat.ofDigits 10 (natDigitsLE f n) = n := by
  intro f
  induction f with
  | zero =>
    intro n h
    have h0 : n = 0 := Nat.le_zero.mp h
    subst h0
    rfl
  | succ f ih =>
    intro n h
    by_cases h0 : n = 0
    · subst h0
      rw [natDigitsLE, if_pos rfl]
      rfl
    · have hdiv : n / 10 ≤ f := by
        have : n / 10 < n := Nat.div_lt_self (Nat.pos_of_ne_zero h0) (by omega)
        omega
      rw [natDigitsLE, if_neg h0, Nat.ofDigits_cons, ih (n / 10) hdiv]
      omega

theorem digitChar_lt_ten_ne_dash : ∀ d : Nat, d < 10 → Nat.digitChar d ≠ '-' := by decide

theorem digitChar_lt_ten_inj :
    ∀ a : Nat, a < 10 → ∀ b : Nat, b < 10 → Nat.digitChar a = Nat.digitChar b → a = b := by decide

theorem natStr_data_ne_zero (n : Nat) (h : n ≠ 0) :
    (natStr n).data = (natDigitsLE n n).reverse.map Nat.digitChar := by
  rw [natStr, if_neg h]

theorem natStr_no_dash (n : Nat) : '-' ∉ (natStr n).data := by
  by_cases h : n = 0
  · rw [natStr, if_pos h]
    decide
  · rw [natStr_data_ne_zero n h]
    intro hm
    obtain ⟨d, hd, he⟩ := List.mem_map.mp hm
    exact digitChar_lt_ten_ne_dash d (natDigitsLE_lt_ten n n d (List.mem_reverse.mp hd)) he

theorem map_digitChar_inj : ∀ l₁ l₂ : List Nat, (∀ d ∈ l₁, d < 10) → (∀ d ∈ l₂, d < 10) →
    l₁.map Nat.digitChar = l₂.map Nat.digitChar → l₁ = l₂ := by
  intro l₁
  induction l₁ with
  | nil =>
    intro l₂ _ _ h
    cases l₂ with
    | nil => rfl
    | cons b t => simp at h
  | cons a t ih =>
    intro l₂ h1 h2 h
    cases l₂ with
    | nil => simp at h
    | cons b t₂ =>
      simp only [List.map_cons, List.cons.injEq] at h
      have hab := digitChar_lt_ten_inj a (h1 a (List.mem_cons_self a t)) b
        (h2 b (List.mem_cons_self b t₂)) h.1
      rw [hab, ih t₂ (fun d hd => h1 d (List.mem_cons_of_mem a hd))
        (fun d hd => h2 d (List.mem_cons_of_mem b hd)) h.2]

theorem natStr_data_ne_zero_str (n : Nat) (hn : n ≠ 0) : (natStr n).data ≠ ("0" : String).data := by
  intro hd
  rw [natStr_data_ne_zero n hn] at hd
  have hz : (natDigitsLE n n).reverse = [0] := by
    apply map_digitChar_inj
    · intro d hd'
      exact natDigitsLE_lt_ten n n d (List.mem_reverse.mp hd')
    · intro d hd'
      rcases List.mem_singleton.mp hd' with rfl
      omega
    · exact hd
  have hdig : natDigitsLE n n = [0] := by
    have := congrArg List.reverse hz
    simpa using this
  have hval := ofDigits_natDigitsLE n n le_rfl
  rw [hdig] at hval
  simp [Nat.ofDigits] at hval
  exact hn hval.symm

theorem natStr_inj : ∀ m n : Nat, natStr m = natStr n → m = n := by
  intro m n h
  have hd : (natStr m).data = (natStr n).data := congrArg String.data h
  by_cases hm : m = 0 <;> by_cases hn : n = 0
  · omega
  · exfalso
    rw [natStr, if_pos hm] at hd
    exact natStr_data_ne_zero_str n hn hd.symm
  · exfalso
    have hd2 := hd.symm
    rw [natStr, if_pos hn] at hd2
    exact natStr_data_ne_zero_str m hm hd2.symm
  · rw [natStr_data_ne_zero m hm, natStr_data_ne_zero n hn] at hd
    have hrev : (natDigitsLE m m).reverse = (natDigitsLE n n).reverse :=
      map_digitChar_inj _ _
        (fun d hd' => natDigitsLE_lt_ten _ _ d (List.mem_reverse.mp hd'))
        (fun d hd' => natDigitsLE_lt_ten _ _ d (List.mem_reverse.mp hd')) hd
    have hdig : natDigitsLE m m = natDigitsLE n n := by
      have := congrArg List.reverse hrev
      simpa using this
    have h1 := ofDigits_natDigitsLE m m le_rfl
    have h2 := ofDigits_natDigitsLE n n le_rfl
    rw [hdig] at h1
    omega

theorem dash_split_inj : ∀ (l₁ l₂ r₁ r₂ : List Char),
    l₁ ++ '-' :: r₁ = l₂ ++ '-' :: r₂ → '-' ∉ r₁ → '-' ∉ r₂ → l₁ = l₂ ∧ r₁ = r₂ := by
  intro l₁
  induction l₁ with
  | nil =>
    intro l₂ r₁ r₂ h h1 h2
    cases l₂ with
    | nil => simpa using h
    | cons c t =>
      exfalso
      simp only [List.nil_append, List.cons_append, List.cons.injEq] at h
      apply h1
      rw [h.2]
      exact List.mem_append.mpr (Or.inr (List.mem_cons_self _ _))
  | cons c t ih =>
    intro l₂ r₁ r₂ h h1 h2
    cases l₂ with
    | nil =>
      exfalso
      simp only [List.nil_append, List.cons_append, List.cons.injEq] at h
      apply h2
      rw [← h.2]
      exact List.mem_append.mpr (Or.inr (List.mem_cons_self _ _))
    | cons c' t' =>
      simp only [List.cons_append, List.cons.injEq] at h
      obtain ⟨rfl, h⟩ := h
      obtain ⟨ht, hr⟩ := ih t' r₁ r₂ h h1 h2
      exact ⟨by rw [ht], hr⟩

theorem strData_ext (s t : String) (h : s.data = t.data) : s = t := by
  cases s with
  | mk d1 =>
    cases t with
    | mk d2 =>
      have hh : d1 = d2 := h
      rw [hh]

theorem truckId_inj (c₁ c₂ : String) (i₁ i₂ : Nat) (h : truckId c₁ i₁ = truckId c₂ i₂) :
    c₁ = c₂ ∧ i₁ = i₂ := by
  have hd : c₁.data ++ '-' :: (natStr i₁).data = c₂.data ++ '-' :: (natStr i₂).data := by
    have h2 := congrArg String.data h
    simp only [truckId, String.data_append] at h2
    simpa using h2
  obtain ⟨h1, h2⟩ := dash_split_inj c₁.data c₂.data (natStr i₁).data (natStr i₂).data hd
    (natStr_no_dash i₁) (natStr_no_dash i₂)
  exact ⟨strData_ext _ _ h1, natStr_inj i₁ i₂ (strData_ext _ _ h2)⟩

/-! ## Lemmas: assembling the capacity invariant at the output level -/

theorem groupBy_total_nonneg (rows : List CanonicalRow) (h : ∀ r ∈ rows, 0 ≤ r.lm) :
    ∀ g ∈ groupBy rows, 0 ≤ g.total_lm := by
  intro g hg
  unfold groupBy at hg
  obtain ⟨k, _, rfl⟩ := List.mem_map.mp hg
  apply List.sum_nonneg
  intro x hx
  obtain ⟨r, hr, rfl⟩ := List.mem_map.mp hx
  exact h r (List.mem_filter.mp hr).1

theorem eq_singleton_of_length_le_one {α : Type} {l : List α} {a : α}
    (h1 : l.length ≤ 1) (h2 : a ∈ l) : l = [a] := by
  cases l with
  | nil => cases h2
  | cons x t =>
    cases t with
    | nil =>
      rcases List.mem_singleton.mp h2 with rfl
      rfl
    | cons y u => simp at h1

theorem plan_capacity_invariant (cap : ℚ) (rows : List CanonicalRow) (tid : String)
    (hload : ∀ r ∈ rows, 0 ≤ r.lm) :
    (∀ a ∈ (planWithCapacity cap rows).filter (fun a => decide (a.truck_id = tid)),
        a.lm_used_in_truck ≤ cap) ∨
      (((planWithCapacity cap rows).filter (fun a => decide (a.truck_id = tid))).length = 1 ∧
        ∀ a ∈ (planWithCapacity cap rows).filter (fun a => decide (a.truck_id = tid)),
          cap < a.total_lm) := by
  have hloadgs : ∀ g ∈ sortGroups (groupBy rows), 0 ≤ g.total_lm := by
    intro g hg
    exact groupBy_total_nonneg rows hload g ((List.mem_insertionSort planLE).mp hg)
  obtain ⟨⟨ihA, ihC, ihD, ihB⟩, _⟩ :=
    assignAll_invariant cap (sortGroups (groupBy rows)) 1 none 0 hloadgs
  have hplan : planWithCapacity cap rows =
      (assignAll cap (1, none, 0) (sortGroups (groupBy rows))).map mkAssigned := rfl
  have hfilter : ((assignAll cap (1, none, 0) (sortGroups (groupBy rows))).map
        mkAssigned).filter (fun a => decide (a.truck_id = tid))
      = ((assignAll cap (1, none, 0) (sortGroups (groupBy rows))).filter
          (fun e => decide (truckId e.1.carrier e.2.1 = tid))).map mkAssigned := by
    rw [List.filter_map]
    rfl
  rw [hplan, hfilter]
  by_cases hall : ∀ e ∈ (assignAll cap (1, none, 0) (sortGroups (groupBy rows))).filter
      (fun e => decide (truckId e.1.carrier e.2.1 = tid)), e.2.2 ≤ cap
  · left
    intro a ha
    obtain ⟨e, he, rfl⟩ := List.mem_map.mp ha
    exact hall e he
  · right
    push_neg at hall
    obtain ⟨e, he, hcap⟩ := hall
    have heo : e ∈ assignAll cap (1, none, 0) (sortGroups (groupBy rows)) :=
      (List.mem_filter.mp he).1
    have hetid : truckId e.1.carrier e.2.1 = tid := by
      have h2 := (List.mem_filter.mp he).2
      simpa using h2
    obtain ⟨h1, h2, h3⟩ := ihB e heo hcap
    have hsub : ∀ x ∈ assignAll cap (1, none, 0) (sortGroups (groupBy rows)),
        decide (truckId x.1.carrier x.2.1 = tid) = true → decide (x.2.1 = e.2.1) = true := by
      intro x _ hx
      simp only [decide_eq_true_eq] at hx ⊢
      exact (truckId_inj x.1.carrier e.1.carrier x.2.1 e.2.1 (hx.trans hetid.symm)).2
    have hlen : ((assignAll cap (1, none, 0) (sortGroups (groupBy rows))).filter
        (fun x => decide (truckId x.1.carrier x.2.1 = tid))).length ≤ 1 := by
      calc ((assignAll cap (1, none, 0) (sortGroups (groupBy rows))).filter
            (fun x => decide (truckId x.1.carrier x.2.1 = tid))).length
          = (assignAll cap (1, none, 0) (sortGroups (groupBy rows))).countP
              (fun x => decide (truckId x.1.carrier x.2.1 = tid)) :=
            (List.countP_eq_length_filter _ _).symm
        _ ≤ (assignAll cap (1, none, 0) (sortGroups (groupBy rows))).countP
              (fun x => decide (x.2.1 = e.2.1)) := List.countP_mono_left hsub
        _ = ((assignAll cap (1, none, 0) (sortGroups (groupBy rows))).filter
              (fun x => decide (x.2.1 = e.2.1))).length := List.countP_eq_length_filter _ _
        _ = 1 := h3
    have hS : (assignAll cap (1, none, 0) (sortGroups (groupBy rows))).filter
        (fun e => decide (truckId e.1.carrier e.2.1 = tid)) = [e] :=
      eq_singleton_of_length_le_one hlen he
    rw [hS]
    refine ⟨rfl, ?_⟩
    intro a ha
    obtain ⟨x, hx, rfl⟩ := List.mem_map.mp ha
    rcases List.mem_singleton.mp hx with rfl
    exact h1

/-- Claim C3: for every canonical table, after planning, every truck id in the
output satisfies: each running load recorded on that truck (whose largest
value is the running load of its last-placed group) is at most MAX_LM, unless
the truck holds exactly one group whose own total_load alone exceeds MAX_LM;
and a group is never split across trucks: the output carries each group
exactly once, with a single truck id. -/
theorem C3_capacity_invariant (rows : List CanonicalRow) (tid : String)
    (hload : ∀ r ∈ rows, 0 ≤ r.lm) :
    (((perform_transport_planning rows).map Assigned.toGroup).Perm (groupBy rows)) ∧
    ((∀ a ∈ (perform_transport_planning rows).filter (fun a => decide (a.truck_id = tid)),
        a.lm_used_in_truck ≤ MAX_LM) ∨
      (((perform_transport_planning rows).filter
          (fun a => decide (a.truck_id = tid))).length = 1 ∧
        ∀ a ∈ (perform_transport_planning rows).filter (fun a => decide (a.truck_id = tid)),
          MAX_LM < a.total_lm)) := by
  constructor
  · unfold perform_transport_planning
    rw [plan_map_toGroup]
    exact List.perm_insertionSort planLE (groupBy rows)
  · exact plan_capacity_invariant MAX_LM rows tid hload

/-- Witness for C3: two groups of carrier "A" that share truck "A-2" under
MAX_LM. -/
theorem C3_capacity_invariant_witness :
    (∀ r ∈ rowsCap, 0 ≤ r.lm) ∧
    ((((perform_transport_planning rowsCap).map Assigned.toGroup).Perm (groupBy rowsCap)) ∧
     ((∀ a ∈ (perform_transport_planning rowsCap).filter
          (fun a => decide (a.truck_id = "A-2")),
         a.lm_used_in_truck ≤ MAX_LM) ∨
       (((perform_transport_planning rowsCap).filter
           (fun a => decide (a.truck_id = "A-2"))).length = 1 ∧
         ∀ a ∈ (perform_transport_planning rowsCap).filter
             (fun a => decide (a.truck_id = "A-2")),
           MAX_LM < a.total_lm))) :=
  ⟨by decide, C3_capacity_invariant rowsCap "A-2" (by decide)⟩

/-! ## The resolver claims -/

/-- Claim C1, evaluated at the failing input: the script sku filter drops
only rows whose sku is empty after trimming.  On tblSkuFilter the
whitespace-only sku is dropped and "0" is retained, as the claim states, but
the row whose sku is "NaN" is retained too, against the claim: the comparison
with '' is not case-insensitive over "nan"/"none", and the dropna call is a
no-op after astype(str). -/
theorem C1_sku_filter_at_failing_input :
    (process_shipments tblSkuFilter).map (fun r => r.sku) = ["NaN", "0"] := by decide

/-- The line-96 check for the sku column: when no column is labelled "sku"
after the header pipeline, process_shipments returns the empty frame. -/
theorem process_empty_of_no_sku (t : RawTable)
    (h : colIdx (pipelineHeaders t.headers) "sku" = none) : process_shipments t = [] := by
  simp [process_shipments, h]

/-- Counterexample to claim C5: a table with "material" and "artikel"
headers, no "unnamed: 61" and fewer than 62 columns.  The claimed alias
chain would resolve sku from the material column and keep the row; the
script leaves both headers untouched, fails to resolve sku, and returns the
empty frame. -/
theorem C5_material_not_alias :
    pipelineHeaders tblMaterial.headers = ["material", "artikel", "carrier", "shipto"] ∧
    process_shipments tblMaterial = [] := by decide

/-- Claim C5 as amended: sku is resolved by renaming the column labelled
"unnamed: 61" (after normalization and the rename pass); else, when more
than 61 columns exist, the column at positional index 61; "material" and
"artikel" play no role.  When neither branch applies the headers are left
unchanged, so a sku column is then present only if one is already labelled
"sku" (such a table keeps its rows); and whenever no "sku" column exists
after the header pipeline, the resolver returns an empty table. -/
theorem C5_sku_resolution_amended :
    (renameMap "material" = "material" ∧ renameMap "artikel" = "artikel") ∧
    (∀ hs : List String, "unnamed: 61" ∈ hs →
      skuFix hs = hs.map (fun h => if h = "unnamed: 61" then "sku" else h)) ∧
    (∀ hs : List String, "unnamed: 61" ∉ hs → 61 < hs.length →
      skuFix hs = hs.map (fun h => if h = hs.getD 61 "" then "sku" else h)) ∧
    (∀ hs : List String, "unnamed: 61" ∉ hs → ¬ 61 < hs.length → skuFix hs = hs) ∧
    (∀ hs : List String,
      pipelineHeaders hs = skuFix ((hs.map normalizeHeader).map renameMap)) ∧
    (∀ t : RawTable, colIdx (pipelineHeaders t.headers) "sku" = none →
      process_shipments t = []) ∧
    process_shipments tblRawSku = [⟨"S1", "C", "X", 0⟩] := by
  refine ⟨⟨rfl, rfl⟩, ?_, ?_, ?_, fun hs => rfl, process_empty_of_no_sku, by decide⟩
  · intro hs h
    rw [skuFix, if_pos h]
  · intro hs h1 h2
    rw [skuFix, if_neg h1, if_pos h2]
  · intro hs h1 h2
    rw [skuFix, if_neg h1, if_neg h2]

/-- Witness for the amended C5 at concrete inputs: one header list per branch
of the resolution chain, and a table with no resolvable sku emptied. -/
theorem C5_sku_resolution_amended_witness :
    skuFix ["unnamed: 61"] =
      (["unnamed: 61"].map (fun h => if h = "unnamed: 61" then "sku" else h)) ∧
    skuFix hsWide = hsWide.map (fun h => if h = hsWide.getD 61 "" then "sku" else h) ∧
    skuFix ["a"] = ["a"] ∧
    process_shipments tblMaterial = [] :=
  ⟨C5_sku_resolution_amended.2.1 ["unnamed: 61"] (by decide),
   C5_sku_resolution_amended.2.2.1 hsWide (by decide) (by decide),
   C5_sku_resolution_amended.2.2.2.1 ["a"] (by decide) (by decide),
   C5_sku_resolution_amended.2.2.2.2.2.1 tblMaterial (by decide)⟩

/-- Counterexample to claim C6: the alias spellings "verzenden aan",
"vervoerder" and "laadmeter" are not in the rename dictionary; they pass
through unchanged, and a table using them loses its carrier and shipto
columns and is emptied. -/
theorem C6_missing_aliases :
    pipelineHeaders tblAliases.headers =
      ["verzenden aan", "vervoerder", "laadmeter", "sku"] ∧
    process_shipments tblAliases = [] := by decide

/-- Claim C6 as amended: the rename pass maps exactly "verzenden-aan code"
and "unnamed: 33" to shipto, "vervoerder/ldv" and "unnamed: 80" to carrier,
"load meter" and "unnamed: 70" to lm, and leaves every other header
unchanged. -/
theorem C6_rename_amended :
    renameMap "verzenden-aan code" = "shipto" ∧ renameMap "unnamed: 33" = "shipto" ∧
    renameMap "vervoerder/ldv" = "carrier" ∧ renameMap "unnamed: 80" = "carrier" ∧
    renameMap "load meter" = "lm" ∧ renameMap "unnamed: 70" = "lm" ∧
    (∀ h : String, h ∉ ["unnamed: 33", "unnamed: 80", "unnamed: 70",
        "verzenden-aan code", "vervoerder/ldv", "load meter"] → renameMap h = h) := by
  refine ⟨rfl, rfl, rfl, rfl, rfl, rfl, ?_⟩
  intro h hmem
  simp only [List.mem_cons, List.not_mem_nil, or_false, not_or] at hmem
  obtain ⟨h1, h2, h3, h4, h5, h6⟩ := hmem
  rw [renameMap, if_neg h1, if_neg h2, if_neg h3, if_neg h4, if_neg h5, if_neg h6]

/-- Witness for the amended C6: the unmatched spellings pass through. -/
theorem C6_rename_amended_witness :
    renameMap "vervoerder" = "vervoerder" ∧ renameMap "laadmeter" = "laadmeter" ∧
    renameMap "verzenden aan" = "verzenden aan" :=
  ⟨C6_rename_amended.2.2.2.2.2.2 "vervoerder" (by decide),
   C6_rename_amended.2.2.2.2.2.2 "laadmeter" (by decide),
   C6_rename_amended.2.2.2.2.2.2 "verzenden aan" (by decide)⟩

/-- Counterexample to claim C7: a non-empty table whose sku cannot be
resolved.  The claimed policy would synthesize sku = "missing" and keep the
row; the script returns the empty frame, discarding the table. -/
theorem C7_unresolved_sku_discards_table :
    tblNoSku.rows.length = 1 ∧ process_shipments tblNoSku = [] := by decide

/-- Claim C7 as amended: when sku, carrier or shipto cannot be resolved by
the rename pass and the positional fix, process_shipments returns the empty
table; no sentinel sku is synthesized, and the caller treats the empty
result as fatal. -/
theorem C7_missing_column_amended :
    (∀ t : RawTable, colIdx (pipelineHeaders t.headers) "sku" = none →
      process_shipments t = []) ∧
    (∀ t : RawTable, colIdx (pipelineHeaders t.headers) "carrier" = none →
      process_shipments t = []) ∧
    (∀ t : RawTable, colIdx (pipelineHeaders t.headers) "shipto" = none →
      process_shipments t = []) := by
  refine ⟨process_empty_of_no_sku, ?_, ?_⟩
  · intro t h
    rcases hsku : colIdx (pipelineHeaders t.headers) "sku" with _ | si <;>
      simp [process_shipments, hsku, h]
  · intro t h
    rcases hsku : colIdx (pipelineHeaders t.headers) "sku" with _ | si <;>
      rcases hcar : colIdx (pipelineHeaders t.headers) "carrier" with _ | ci <;>
        simp [process_shipments, hsku, hcar, h]

/-- Witness for the amended C7 at a concrete table without a resolvable
sku. -/
theorem C7_missing_column_amended_witness :
    colIdx (pipelineHeaders tblNoSku.headers) "sku" = none ∧
    process_shipments tblNoSku = [] :=
  ⟨by decide, C7_missing_column_amended.1 tblNoSku (by decide)⟩

/-- Claim C8: load-length resolution is total (the coercion is a total
function of the cell by construction) and never raises: when no lm column
exists after renaming, every output row carries lm = 0, and a missing cell
or a cell that fails numeric parsing coerces to 0. -/
theorem C8_lm_defaulting :
    (∀ t : RawTable, colIdx (pipelineHeaders t.headers) "lm" = none →
      ∀ r ∈ process_shipments t, r.lm = 0) ∧
    (∀ s : String, parseRat s = none → toNumericCoerce (.str s) = 0) ∧
    toNumericCoerce .na = 0 := by
  refine ⟨?_, ?_, rfl⟩
  · intro t h r hr
    rcases hsku : colIdx (pipelineHeaders t.headers) "sku" with _ | si <;>
      rcases hcar : colIdx (pipelineHeaders t.headers) "carrier" with _ | ci <;>
        rcases hship : colIdx (pipelineHeaders t.headers) "shipto" with _ | hi <;>
          simp only [process_shipments, h, hsku, hcar, hship, List.not_mem_nil] at hr
    obtain ⟨x, hx, rfl⟩ := List.mem_map.mp hr
    obtain ⟨x2, hx2, rfl⟩ := List.mem_map.mp hx
    obtain ⟨x3, hx3, rfl⟩ := List.mem_map.mp ((List.mem_filter.mp
      (List.mem_filter.mp hx2).1).1)
    rfl
  · intro s h
    show (parseRat s).getD 0 = 0
    rw [h]
    rfl

/-- Witness for C8 at a table with no load-meter column and at an
unparsable string. -/
theorem C8_lm_defaulting_witness :
    colIdx (pipelineHeaders tblNoLm.headers) "lm" = none ∧
    (∀ r ∈ process_shipments tblNoLm, r.lm = 0) ∧
    parseRat "abc" = none ∧ toNumericCoerce (.str "abc") = 0 :=
  ⟨by decide, C8_lm_defaulting.1 tblNoLm (by decide), by decide,
   C8_lm_defaulting.2.1 "abc" (by decide)⟩

/-- Claim C10: the fillna sentinels of lines 110-112 are unreachable:
process_shipments equals the same pipeline with those lines removed, because
astype(str) has already turned every missing cell into the literal string
"nan"; a missing carrier cell therefore surfaces downstream as "nan", never
as "ONBEKEND_VERVOERDER". -/
theorem C10_fillna_unreachable :
    (∀ t : RawTable, process_shipments t = process_shipments_nofillna t) ∧
    process_shipments tblNaCarrier = [⟨"S1", "nan", "X", 0⟩] := by
  refine ⟨?_, by decide⟩
  intro t
  unfold process_shipments process_shipments_nofillna
  rcases hsku : colIdx (pipelineHeaders t.headers) "sku" with _ | si <;>
    rcases hcar : colIdx (pipelineHeaders t.headers) "carrier" with _ | ci <;>
      rcases hship : colIdx (pipelineHeaders t.headers) "shipto" with _ | hi <;>
        simp only [hsku, hcar, hship]
  rw [List.map_map]
  apply List.map_congr_left
  intro x hx
  obtain ⟨hx2, _⟩ := List.mem_filter.mp hx
  obtain ⟨hx1, _⟩ := List.mem_filter.mp hx2
  obtain ⟨c, hc, rfl⟩ := List.mem_map.mp hx1
  rfl

end ProcShip

